import Mathlib

/-!
Verification of the histo-graph file storage engine (crate `histo_graph_file`),
a content-addressed object store for directed graphs.

The Rust sources `src/file/src/{hash,object,file,file_storage,file_storage_exp}.rs`
are shallowly embedded below:

* Byte contents are `List Nat` (each element a byte value `< 256`).
* The cryptographic digest (`ring`'s SHA256 behind `Hash::from`) and the binary
  codec (`bincode`) are external trusted primitives for the crate.  The model
  idealizes the digest as a perfect, collision-free content address: `compute`
  is represented by the serialized content itself.  The codec is a fixed
  self-consistent binary format (little-endian fixed-width integers,
  length-prefixed hash fields and lists), as the crate's interface permits for
  such trusted primitives.
* The filesystem is a `Store : FPath → Option Bytes`; a write updates one path.
* Futures are embedded as `Plan` values: `.await` sequencing becomes `Plan.seqP`,
  `join`/`try_join_all` become `Plan.parP`, each `tokio fs::write` becomes a
  `Plan.write` event and each `create_dir_all` a `Plan.mkdir` event.  The list
  of file writes a plan performs is `planWrites`.
* Fallible operations return `Except Err` / `Option`.
-/

/-- A byte string: list of byte values. -/
abbrev Bytes := List Nat

/-- A content digest.  The digest primitive is external to the crate and
idealized as a perfect content address, represented by the hashed content
itself (`compute = id`); its textual form is the lowercase-hex rendering of the
bytes, as produced by `data_encoding::HEXLOWER` in `hash.rs`. -/
abbrev Hash := List Nat

/-- Mirror of `Hash::from` in `hash.rs` (digest of the exact content bytes),
with the digest idealized as injective. -/
def compute (content : Bytes) : Hash := content

/-- Lowercase hex digit for a nibble, as in `data_encoding::HEXLOWER`. -/
def hexDigit (n : Nat) : Char :=
  if n < 10 then Char.ofNat (48 + n) else Char.ofNat (87 + n)

/-- The two lowercase hex characters of one byte, high nibble first. -/
def byteChars (b : Nat) : List Char := [hexDigit (b / 16), hexDigit (b % 16)]

/-- Characters of the hex rendering of a byte string. -/
def hexOfBytes (h : Bytes) : List Char := h.flatMap byteChars

/-- Mirror of `Hash::to_string` in `hash.rs`: lowercase hex text of the digest,
used only to build file names. -/
def hashToText (h : Hash) : String := ⟨hexOfBytes h⟩

theorem hexDigit_inj : ∀ a < 16, ∀ b < 16, hexDigit a = hexDigit b → a = b := by
  decide

theorem byteChars_inj {a b : Nat} (ha : a < 256) (hb : b < 256)
    (h : byteChars a = byteChars b) : a = b := by
  simp only [byteChars, List.cons.injEq, and_true] at h
  have h1 : a / 16 = b / 16 :=
    hexDigit_inj _ (Nat.div_lt_of_lt_mul (by omega)) _ (Nat.div_lt_of_lt_mul (by omega)) h.1
  have h2 : a % 16 = b % 16 :=
    hexDigit_inj _ (Nat.mod_lt _ (by omega)) _ (Nat.mod_lt _ (by omega)) h.2
  omega

theorem hexOfBytes_inj : ∀ (h1 h2 : Bytes), (∀ b ∈ h1, b < 256) → (∀ b ∈ h2, b < 256) →
    hexOfBytes h1 = hexOfBytes h2 → h1 = h2 := by
  intro h1
  induction h1 with
  | nil =>
    intro h2 _ _ heq
    cases h2 with
    | nil => rfl
    | cons c t => simp [hexOfBytes, byteChars] at heq
  | cons a t ih =>
    intro h2 hb1 hb2 heq
    cases h2 with
    | nil => simp [hexOfBytes, byteChars] at heq
    | cons c t2 =>
      simp only [hexOfBytes, List.flatMap_cons, byteChars, List.cons_append, List.nil_append,
        List.cons.injEq] at heq
      obtain ⟨e1, e2, e3⟩ := heq
      have hac : a = c := byteChars_inj (hb1 a (by simp)) (hb2 c (by simp))
        (by simp [byteChars, e1, e2])
      have ht : t = t2 := ih t2 (fun b hb => hb1 b (by simp [hb]))
        (fun b hb => hb2 b (by simp [hb])) e3
      simp [hac, ht]

theorem hashToText_inj {h1 h2 : Hash} (hb1 : ∀ b ∈ h1, b < 256) (hb2 : ∀ b ∈ h2, b < 256)
    (h : hashToText h1 = hashToText h2) : h1 = h2 := by
  exact hexOfBytes_inj h1 h2 hb1 hb2 (congrArg String.data h)

/-! ### The binary codec

`bincode` with its default configuration: fixed-width little-endian integers,
`u64` length prefixes for sequences, and (in `bincode::deserialize`) trailing
bytes after the decoded value are tolerated.  Digest-valued fields are stored
length-prefixed, the codec's self-delimiting form for the idealized digest. -/

/-- Little-endian bytes of a natural number, `k` bytes wide. -/
def leBytes : Nat → Nat → Bytes
  | 0, _ => []
  | k + 1, n => n % 256 :: leBytes k (n / 256)

/-- The value of a little-endian byte string. -/
def leVal (bs : Bytes) : Nat := bs.foldr (fun b acc => b + 256 * acc) 0

/-- Serialization of a `u64` (`bincode::serialize` of the `u64` inside a
`VertexId`): 8 bytes, little endian. -/
def serU64 (n : Nat) : Bytes := leBytes 8 n

theorem leBytes_length (k n : Nat) : (leBytes k n).length = k := by
  induction k generalizing n with
  | zero => rfl
  | succ k ih => simp [leBytes, ih]

theorem leBytes_lt (k n : Nat) : ∀ b ∈ leBytes k n, b < 256 := by
  induction k generalizing n with
  | zero => simp [leBytes]
  | succ k ih =>
    intro b hb
    simp only [leBytes, List.mem_cons] at hb
    rcases hb with h | h
    · omega
    · exact ih _ b h

theorem leVal_leBytes (k n : Nat) : leVal (leBytes k n) = n % 2 ^ (8 * k) := by
  induction k generalizing n with
  | zero => simp [leBytes, leVal, Nat.mod_one]
  | succ k ih =>
    have : leVal (leBytes (k + 1) n) = n % 256 + 256 * leVal (leBytes k (n / 256)) := by
      simp [leBytes, leVal]
    rw [this, ih]
    have h2 : 2 ^ (8 * (k + 1)) = 256 * 2 ^ (8 * k) := by ring
    rw [h2, Nat.mod_mul]

theorem serU64_length (n : Nat) : (serU64 n).length = 8 := leBytes_length 8 n

theorem serU64_lt (n : Nat) : ∀ b ∈ serU64 n, b < 256 := leBytes_lt 8 n

/-- Parse a `u64` from the front of a byte string. -/
def parseU64 (c : Bytes) : Option (Nat × Bytes) :=
  if 8 ≤ c.length then some (leVal (c.take 8), c.drop 8) else none

theorem parseU64_append (n : Nat) (r : Bytes) :
    parseU64 (serU64 n ++ r) = some (n % 2 ^ 64, r) := by
  have hlen : (serU64 n).length = 8 := serU64_length n
  have h8 : 8 ≤ (serU64 n ++ r).length := by simp [hlen]
  simp only [parseU64, h8, if_pos]
  rw [List.take_append_of_le_length (by omega), List.drop_append_of_le_length (by omega),
    List.take_of_length_le (by omega), List.drop_eq_nil_of_le (by omega)]
  have : leVal (serU64 n) = n % 2 ^ 64 := leVal_leBytes 8 n
  simp [this]

/-- Serialization of a digest field: self-delimiting (length-prefixed) form. -/
def serHash (h : Hash) : Bytes := serU64 h.length ++ h

/-- Parse a digest field. -/
def parseHash (c : Bytes) : Option (Hash × Bytes) :=
  match parseU64 c with
  | none => none
  | some (n, r) => if n ≤ r.length then some (r.take n, r.drop n) else none

theorem serHash_length (h : Hash) : (serHash h).length = 8 + h.length := by
  simp [serHash, serU64_length]

theorem serHash_lt {h : Hash} (hb : ∀ b ∈ h, b < 256) : ∀ b ∈ serHash h, b < 256 := by
  intro b hb'
  simp only [serHash, List.mem_append] at hb'
  rcases hb' with h' | h'
  · exact serU64_lt _ b h'
  · exact hb b h'

theorem parseHash_append (h : Hash) (r : Bytes) (hlen : h.length < 2 ^ 64) :
    parseHash (serHash h ++ r) = some (h, r) := by
  simp only [serHash, List.append_assoc, parseHash, parseU64_append,
    Nat.mod_eq_of_lt hlen]
  rw [if_pos (by simp)]
  rw [List.take_append_of_le_length (by omega), List.drop_append_of_le_length (by omega)]
  simp

/-! ### Object model (`object.rs`) -/

/-- Mirror of `HashEdge` in `object.rs`: an edge stored as the digests of the
two endpoints it connects. -/
structure HashEdge where
  fromH : Hash
  toH : Hash
deriving DecidableEq

/-- Mirror of `GraphHash` in `object.rs`: the top object of a stored graph,
holding the digests of the vertex `HashVec` and of the edge `HashVec`. -/
structure GraphHash where
  vertexVecHash : Hash
  edgeVecHash : Hash
deriving DecidableEq

/-- Serialization of a `HashVec` (`bincode` of `Vec<Hash>`): `u64` element
count, then the elements. -/
def serHashVec (hs : List Hash) : Bytes := serU64 hs.length ++ (hs.map serHash).flatten

/-- Serialization of a `HashEdge` (`bincode`, struct fields in order). -/
def serHashEdge (e : HashEdge) : Bytes := serHash e.fromH ++ serHash e.toH

/-- Serialization of a `GraphHash` (`bincode`, struct fields in order). -/
def serGraphHash (gh : GraphHash) : Bytes := serHash gh.vertexVecHash ++ serHash gh.edgeVecHash

/-- Parse `n` digest fields. -/
def parseHashes : Nat → Bytes → Option (List Hash × Bytes)
  | 0, c => some ([], c)
  | k + 1, c =>
    (parseHash c).bind fun hr => (parseHashes k hr.2).map fun hsr => (hr.1 :: hsr.1, hsr.2)

/-- Mirror of deserializing a `VertexId` (`TryFrom<&File<VertexId>>` in
`file.rs`): `bincode::deserialize::<u64>`, tolerating trailing bytes. -/
def deserVertex (c : Bytes) : Option Nat := (parseU64 c).map (·.1)

/-- Mirror of deserializing a `HashEdge` (`TryFrom<&File<HashEdge>>` in
`file.rs`). -/
def deserHashEdge (c : Bytes) : Option HashEdge :=
  (parseHash c).bind fun fr => (parseHash fr.2).map fun tr => ⟨fr.1, tr.1⟩

/-- Modelled from the spec: deserialization of a `HashVec` — the `TryFrom`
impl for `File<HashVec<_>>` → `HashVec<_>` that `read_object` requires is not
under `src/`; per §4.5 the bytes decode to the ordered list of digests written
by §4.4 (count-prefixed list, the inverse of the serialized form). -/
def deserHashVec (c : Bytes) : Option (List Hash) :=
  (parseU64 c).bind fun nr => (parseHashes nr.1 nr.2).map (·.1)

/-- Modelled from the spec: deserialization of a `GraphHash` — the `TryFrom`
impl for `File<GraphHash>` → `GraphHash` that `read_named_object` requires is
not under `src/`; per §4.5 step 1 the named file decodes to
`{vertex_vec_hash, edge_vec_hash}`, the inverse of the serialized form. -/
def deserGraphHash (c : Bytes) : Option GraphHash :=
  (parseHash c).bind fun vr => (parseHash vr.2).map fun er => ⟨vr.1, er.1⟩

theorem parseHashes_append (hs : List Hash) (r : Bytes)
    (hlen : ∀ h ∈ hs, h.length < 2 ^ 64) :
    parseHashes hs.length ((hs.map serHash).flatten ++ r) = some (hs, r) := by
  induction hs with
  | nil => simp [parseHashes]
  | cons h t ih =>
    simp only [List.map_cons, List.flatten_cons, List.length_cons, List.append_assoc,
      parseHashes]
    rw [parseHash_append h _ (hlen h (by simp))]
    simp [ih (fun h' hh' => hlen h' (by simp [hh']))]

theorem parseHash_self (h : Hash) (hlen : h.length < 2 ^ 64) :
    parseHash (serHash h) = some (h, []) := by
  have h0 := parseHash_append h [] hlen
  simpa using h0

theorem parseHashes_self (hs : List Hash) (hlen : ∀ h ∈ hs, h.length < 2 ^ 64) :
    parseHashes hs.length (hs.map serHash).flatten = some (hs, []) := by
  have h0 := parseHashes_append hs [] hlen
  simpa using h0

theorem deserHashVec_ser (hs : List Hash) (hn : hs.length < 2 ^ 64)
    (hlen : ∀ h ∈ hs, h.length < 2 ^ 64) :
    deserHashVec (serHashVec hs) = some hs := by
  rw [deserHashVec, serHashVec, parseU64_append, Nat.mod_eq_of_lt hn]
  simp [parseHashes_self hs hlen]

theorem deserHashEdge_ser (e : HashEdge) (hf : e.fromH.length < 2 ^ 64)
    (ht : e.toH.length < 2 ^ 64) : deserHashEdge (serHashEdge e) = some e := by
  rw [deserHashEdge, serHashEdge, parseHash_append _ _ hf]
  simp [parseHash_self _ ht]

theorem deserGraphHash_ser (gh : GraphHash) (hv : gh.vertexVecHash.length < 2 ^ 64)
    (he : gh.edgeVecHash.length < 2 ^ 64) :
    deserGraphHash (serGraphHash gh) = some gh := by
  rw [deserGraphHash, serGraphHash, parseHash_append _ _ hv]
  simp [parseHash_self _ he]

theorem deserVertex_ser (v : Nat) (hv : v < 2 ^ 64) : deserVertex (serU64 v) = some v := by
  have h0 : serU64 v = serU64 v ++ [] := by simp
  rw [deserVertex, h0, parseU64_append, Nat.mod_eq_of_lt hv]
  rfl

theorem serHashVec_lt {hs : List Hash} (hb : ∀ h ∈ hs, ∀ b ∈ h, b < 256) :
    ∀ b ∈ serHashVec hs, b < 256 := by
  intro b hb'
  simp only [serHashVec, List.mem_append] at hb'
  rcases hb' with h' | h'
  · exact serU64_lt _ b h'
  · obtain ⟨l, hl, hbl⟩ := List.mem_flatten.mp h'
    obtain ⟨h, hh, rfl⟩ := List.mem_map.mp hl
    exact serHash_lt (hb h hh) b hbl

theorem serHashEdge_lt {e : HashEdge} (hf : ∀ b ∈ e.fromH, b < 256)
    (ht : ∀ b ∈ e.toH, b < 256) : ∀ b ∈ serHashEdge e, b < 256 := by
  intro b hb'
  simp only [serHashEdge, List.mem_append] at hb'
  rcases hb' with h' | h'
  · exact serHash_lt hf b h'
  · exact serHash_lt ht b h'

theorem serGraphHash_lt {gh : GraphHash} (hv : ∀ b ∈ gh.vertexVecHash, b < 256)
    (he : ∀ b ∈ gh.edgeVecHash, b < 256) : ∀ b ∈ serGraphHash gh, b < 256 := by
  intro b hb'
  simp only [serGraphHash, List.mem_append] at hb'
  rcases hb' with h' | h'
  · exact serHash_lt hv b h'
  · exact serHash_lt he b h'

/-! ### Paths and the filesystem state

Per-kind subdirectories come from the `ObjectType::sub_dir` impls in
`object.rs`; `create_path_from_hash` and `create_named_path` are in `file.rs`.
The durable state is exactly the mapping from paths to file contents under the
base directory (spec §3 invariant), so the base path itself is dropped and a
`Store` maps the relative path to the stored bytes. -/

/-- A file path relative to the base directory: subdirectory and file name. -/
structure FPath where
  dir : String
  file : String
deriving DecidableEq

/-- Mirror of `File::create_path_from_hash`: `base/sub_dir/hex(hash)`. -/
def createPathFromHash (subDir : String) (h : Hash) : FPath := ⟨subDir, hashToText h⟩

/-- Mirror of `File::create_named_path`: `base/sub_dir/name`. -/
def createNamedPath (subDir : String) (name : String) : FPath := ⟨subDir, name⟩

/-- The filesystem content under the base directory. -/
def Store := FPath → Option Bytes

/-- The state after `fs::write(path, bytes)`. -/
def Store.write (s : Store) (p : FPath) (b : Bytes) : Store :=
  fun q => if q = p then some b else s q

/-- The state after `std::fs::remove_file(path)` (used to model deleting an
object before a load). -/
def Store.erase (s : Store) (p : FPath) : Store :=
  fun q => if q = p then none else s q

/-- An empty base directory. -/
def emptyStore : Store := fun _ => none

/-- Apply a list of writes in order. -/
def applyWrites (s : Store) (ws : List (FPath × Bytes)) : Store :=
  ws.foldl (fun s w => s.write w.1 w.2) s

/-! ### Futures as plans

A `Plan` records the effect structure of one future: `seqP` is `.await` /
`and_then` sequencing (the left part completes before the right part starts),
`parP` is `join` / `try_join_all` / `join_all` (both parts in flight
concurrently), `write` is one `fs::write` and `mkdir` one `create_dir_all`. -/

inductive Plan where
  | nil : Plan
  | write (p : FPath) (b : Bytes) : Plan
  | mkdir (d : String) : Plan
  | seqP (a b : Plan) : Plan
  | parP (a b : Plan) : Plan
deriving DecidableEq

/-- The file writes a plan performs, in syntactic order.  (`mkdir` is
idempotent directory creation and produces no file.) -/
def planWrites : Plan → List (FPath × Bytes)
  | .nil => []
  | .write p b => [(p, b)]
  | .mkdir _ => []
  | .seqP a b => planWrites a ++ planWrites b
  | .parP a b => planWrites a ++ planWrites b

/-- True iff the plan's top-level composition is a concurrent join. -/
def stagePar : Plan → Bool
  | .parP _ _ => true
  | _ => false

/-! ### The File abstraction (`file.rs`) -/

/-- Mirror of `File<OT>` in `file.rs`: the content to be stored together with
the digest of that content.  (The compile-time kind tag selects the
subdirectory; here the subdirectory is passed alongside.) -/
structure FileObj where
  content : Bytes
  hash : Hash
deriving DecidableEq

/-- Mirror of `TryFrom<&VertexId> for File<VertexId>`: serialize the inner
`u64`, digest the bytes.  (`bincode::serialize` of a `u64` is total, so the
fallible Rust constructor always succeeds.) -/
def fileOfVertexId (v : Nat) : FileObj :=
  let content := serU64 v
  ⟨content, compute content⟩

/-- Mirror of the `HashEdge` built inside `TryFrom<&Edge> for File<HashEdge>`:
digests of the two endpoints' serialized forms, computed from the edge alone. -/
def hashEdgeOfEdge (e : Nat × Nat) : HashEdge :=
  ⟨compute (serU64 e.1), compute (serU64 e.2)⟩

/-- Mirror of `TryFrom<&Edge> for File<HashEdge>`: serialize the `HashEdge`,
digest the bytes. -/
def fileOfEdge (e : Nat × Nat) : FileObj :=
  let content := serHashEdge (hashEdgeOfEdge e)
  ⟨content, compute content⟩

/-- Mirror of `TryFrom<&HashVec<OT>> for File<HashVec<OT>>`. -/
def fileOfHashVec (hs : List Hash) : FileObj :=
  let content := serHashVec hs
  ⟨content, compute content⟩

/-- Mirror of `TryFrom<&GraphHash> for File<GraphHash>`. -/
def fileOfGraphHash (gh : GraphHash) : FileObj :=
  let content := serGraphHash gh
  ⟨content, compute content⟩

/-! ### The directed graph

`DirectedGraph`, `VertexId` and `Edge` live in the external crate
`histo_graph_core`, which is not under `src/`. -/

/-- Modelled from the spec: the in-memory directed graph of
`histo_graph_core::graph::directed_graph` (spec §1/§3): a vertex set and an
edge set over 64-bit vertex identities, with `add_vertex` / `add_edge`
insertion and iteration over each set in an arbitrary but stable enumeration
order (represented here by insertion order, duplicates never stored).  Per
spec §8 Scenario B, adding an edge does not materialize its endpoints as
vertices. -/
structure DirectedGraph where
  vertices : List Nat
  edges : List (Nat × Nat)
deriving DecidableEq

/-- Modelled from the spec: `DirectedGraph::new()`. -/
def DirectedGraph.empty : DirectedGraph := ⟨[], []⟩

/-- Modelled from the spec: `add_vertex` inserts into the vertex set. -/
def DirectedGraph.addVertex (g : DirectedGraph) (v : Nat) : DirectedGraph :=
  if v ∈ g.vertices then g else ⟨g.vertices ++ [v], g.edges⟩

/-- Modelled from the spec: `add_edge` inserts into the edge set (and only
there). -/
def DirectedGraph.addEdge (g : DirectedGraph) (e : Nat × Nat) : DirectedGraph :=
  if e ∈ g.edges then g else ⟨g.vertices, g.edges ++ [e]⟩

/-- Equality of graphs as vertex set plus edge set (spec §4.4: iteration order
not preserved; §8: set equality). -/
def graphEquiv (g1 g2 : DirectedGraph) : Prop :=
  (∀ v, v ∈ g1.vertices ↔ v ∈ g2.vertices) ∧ (∀ e, e ∈ g1.edges ↔ e ∈ g2.edges)

/-- Typing facts carried by the Rust representation: vertex identities are
`u64` values and the vertex/edge collections are addressable vectors. -/
def wfGraph (g : DirectedGraph) : Prop :=
  (∀ v ∈ g.vertices, v < 2 ^ 64) ∧ g.vertices.length < 2 ^ 60 ∧ g.edges.length < 2 ^ 58

/-- Every edge endpoint is also a vertex of the graph. -/
def closedGraph (g : DirectedGraph) : Prop :=
  ∀ e ∈ g.edges, e.1 ∈ g.vertices ∧ e.2 ∈ g.vertices

/-! ### The write path of `file_storage.rs` (async/await engine)

Each function returns the `Plan` of its filesystem effects paired with its
result value.  `.await?` sequencing becomes `Plan.seqP`; `try_join_all`
becomes a fold of `Plan.parP`. -/

/-- Joined fan-out over a batch of planned computations, as
`futures::future::try_join_all`: all operations in flight concurrently,
results collected in input order. -/
def tryJoinAll {α : Type} (l : List (Plan × α)) : Plan × List α :=
  ((l.map (·.1)).foldr Plan.parP Plan.nil, l.map (·.2))

namespace FS

/-- Mirror of `write_file` in `file_storage.rs`: one `fs::write` at
`create_path_from_hash(base, file.hash)`, yielding the file's hash. -/
def writeFile (subDir : String) (f : FileObj) : Plan × Hash :=
  (.write (createPathFromHash subDir f.hash) f.content, f.hash)

/-- Mirror of `write_all_files`: `try_join_all` over `write_file` of each
file, collecting the hashes into a `HashVec` in input order. -/
def writeAllFiles (subDir : String) (files : List FileObj) : Plan × List Hash :=
  tryJoinAll (files.map (writeFile subDir))

/-- Mirror of `create_dir_and_write_all_files`: `create_dir_all` for the
kind's directory, then `write_all_files`. -/
def createDirAndWriteAllFiles (subDir : String) (files : List FileObj) : Plan × List Hash :=
  let pw := writeAllFiles subDir files
  (.seqP (.mkdir subDir) pw.1, pw.2)

/-- Mirror of `create_dir_and_write_object`: `create_dir_all` for the kind's
directory, then `write_file` of the object's `File`. -/
def createDirAndWriteObject (subDir : String) (f : FileObj) : Plan × Hash :=
  let pw := writeFile subDir f
  (.seqP (.mkdir subDir) pw.1, pw.2)

/-- Mirror of `write_graph_vertices`: write every vertex file under
`"vertex"`, then write the collected `HashVec` under `"vertexvec"`. -/
def writeGraphVertices (g : DirectedGraph) : Plan × Hash :=
  let files := g.vertices.map fileOfVertexId
  let pv := createDirAndWriteAllFiles "vertex" files
  let po := createDirAndWriteObject "vertexvec" (fileOfHashVec pv.2)
  (.seqP pv.1 po.1, po.2)

/-- Mirror of `write_graph_edges`: write every edge file under `"edge"`, then
write the collected `HashVec` under `"edgevec"`. -/
def writeGraphEdges (g : DirectedGraph) : Plan × Hash :=
  let files := g.edges.map fileOfEdge
  let pe := createDirAndWriteAllFiles "edge" files
  let po := createDirAndWriteObject "edgevec" (fileOfHashVec pe.2)
  (.seqP pe.1 po.1, po.2)

/-- Mirror of `write_graph` in `file_storage.rs`: `write_graph_vertices(..)
.await?` and THEN `write_graph_edges(..).await?` — the vertex stage completes
before the edge stage starts. -/
def writeGraph (g : DirectedGraph) : Plan × GraphHash :=
  let pv := writeGraphVertices g
  let pe := writeGraphEdges g
  (.seqP pv.1 pe.1, ⟨pv.2, pe.2⟩)

/-- Mirror of `save_graph_as` in `file_storage.rs`: `write_graph`, then
`create_dir_all` for `"graph"`, then `write_named_file` of the `GraphHash`
under the caller's name. -/
def saveGraphAs (name : String) (g : DirectedGraph) : Plan :=
  let pg := writeGraph g
  .seqP pg.1 (.seqP (.mkdir "graph")
    (.write (createNamedPath "graph" name) (fileOfGraphHash pg.2).content))

end FS

/-- The file writes `file_storage::save_graph_as(base, name, graph)` performs,
in order. -/
def saveWrites (name : String) (g : DirectedGraph) : List (FPath × Bytes) :=
  planWrites (FS.saveGraphAs name g)

/-! ### The write path of `file_storage_exp.rs` (future-combinator engine) -/

/-- Joined fan-out as `futures::future::join_all` over `Item`/`Error` futures
(futures 0.1): all operations in flight, first error wins, results in input
order. -/
def joinAllExp {α : Type} (l : List (Plan × α)) : Plan × List α :=
  ((l.map (·.1)).foldr Plan.parP Plan.nil, l.map (·.2))

namespace Exp

/-- Mirror of `write_file` in `file_storage_exp.rs`. -/
def writeFile (subDir : String) (f : FileObj) : Plan × Hash :=
  (.write (createPathFromHash subDir f.hash) f.content, f.hash)

/-- Mirror of `write_all_files` in `file_storage_exp.rs`: each
`futures::done(file)` chained into `write_file`, joined with `join_all`. -/
def writeAllFiles (subDir : String) (files : List FileObj) : Plan × List Hash :=
  joinAllExp (files.map (writeFile subDir))

/-- Mirror of `create_dir_and_write_all_files` in `file_storage_exp.rs`. -/
def createDirAndWriteAllFiles (subDir : String) (files : List FileObj) : Plan × List Hash :=
  let pw := writeAllFiles subDir files
  (.seqP (.mkdir subDir) pw.1, pw.2)

/-- Mirror of `create_dir_and_write_object` in `file_storage_exp.rs`:
`create_dir_all(..).and_then(move |_| write_object(..))`. -/
def createDirAndWriteObject (subDir : String) (f : FileObj) : Plan × Hash :=
  let pw := writeFile subDir f
  (.seqP (.mkdir subDir) pw.1, pw.2)

/-- Mirror of `write_graph_vertices` in `file_storage_exp.rs`. -/
def writeGraphVertices (g : DirectedGraph) : Plan × Hash :=
  let files := g.vertices.map fileOfVertexId
  let pv := createDirAndWriteAllFiles "vertex" files
  let po := createDirAndWriteObject "vertexvec" (fileOfHashVec pv.2)
  (.seqP pv.1 po.1, po.2)

/-- Mirror of `write_graph_edges` in `file_storage_exp.rs`. -/
def writeGraphEdges (g : DirectedGraph) : Plan × Hash :=
  let files := g.edges.map fileOfEdge
  let pe := createDirAndWriteAllFiles "edge" files
  let po := createDirAndWriteObject "edgevec" (fileOfHashVec pe.2)
  (.seqP pe.1 po.1, po.2)

/-- Mirror of `write_graph` in `file_storage_exp.rs`:
`vertex_fut.join(edge_fut)` — the two stages are in flight concurrently. -/
def writeGraph (g : DirectedGraph) : Plan × GraphHash :=
  let pv := writeGraphVertices g
  let pe := writeGraphEdges g
  (.parP pv.1 pe.1, ⟨pv.2, pe.2⟩)

/-- Mirror of `save_graph_as` in `file_storage_exp.rs`: `write_graph`
`and_then` `write_named_file` (no directory creation for `"graph"` in this
engine). -/
def saveGraphAs (name : String) (g : DirectedGraph) : Plan :=
  let pg := writeGraph g
  .seqP pg.1 (.write (createNamedPath "graph" name) (fileOfGraphHash pg.2).content)

end Exp

/-! ### Errors and the read path of `file_storage.rs` -/

/-- Modelled from the spec: the error taxonomy of `crate::error` (§7), whose
source file is not under `src/`.  `notFound` is the `IoError` specialization
raised for an absent named or hashed object (the only I/O failure a pure
filesystem map can produce); `serializationErr` covers corrupt, truncated or
kind-mismatched bytes. -/
inductive Err where
  | notFound : Err
  | serializationErr : Err
deriving DecidableEq

/-- Propagation of the first failure, as Rust's `?` / `and_then`. -/
def eBind {α β : Type} (x : Except Err α) (f : α → Except Err β) : Except Err β :=
  match x with
  | .error e => .error e
  | .ok a => f a

theorem eBind_ok {α β : Type} (a : α) (f : α → Except Err β) :
    eBind (.ok a) f = f a := rfl

theorem eBind_error {α β : Type} (e : Err) (f : α → Except Err β) :
    eBind (.error e) f = .error e := rfl

theorem eBind_eq_ok {α β : Type} {x : Except Err α} {f : α → Except Err β} {b : β}
    (h : eBind x f = .ok b) : ∃ a, x = .ok a ∧ f a = .ok b := by
  cases x with
  | ok a => exact ⟨a, rfl, h⟩
  | error e => simp [eBind] at h

/-- Lift a deserialization result, as the `?` on a `bincode` result. -/
def deserExcept {α : Type} (o : Option α) : Except Err α :=
  match o with
  | some a => .ok a
  | none => .error .serializationErr

theorem deserExcept_eq_ok {α : Type} {o : Option α} {a : α}
    (h : deserExcept o = .ok a) : o = some a := by
  cases o with
  | some b => cases h; rfl
  | none => simp [deserExcept] at h

/-- Mirror of `read_file` in `file_storage.rs`: `fs::read` at the
hash-addressed path, the `File`'s hash field taken from the REQUESTED hash
(`File::<OT>::new(fs::read(path).await?, hash)`) — the content is never
re-digested. -/
def readFile (s : Store) (subDir : String) (h : Hash) : Except Err FileObj :=
  match s (createPathFromHash subDir h) with
  | some content => .ok ⟨content, h⟩
  | none => .error .notFound

/-- Mirror of `read_named_file` in `file_storage.rs`: `fs::read` at the named
path; here the hash is computed from the content read. -/
def readNamedFile (s : Store) (name : String) : Except Err FileObj :=
  match s (createNamedPath "graph" name) with
  | some content => .ok ⟨content, compute content⟩
  | none => .error .notFound

/-- Mirror of `read_object` in `file_storage.rs`: `read_file` then the
`TryInto` deserialization of the content (the kind's dictionary is passed as
`deser`). -/
def readObject {α : Type} (s : Store) (subDir : String) (deser : Bytes → Option α)
    (h : Hash) : Except Err α :=
  eBind (readFile s subDir h) fun f => deserExcept (deser f.content)

/-- Mirror of `read_named_object` in `file_storage.rs` at `GraphHash`. -/
def readNamedGraphHash (s : Store) (name : String) : Except Err GraphHash :=
  eBind (readNamedFile s name) fun f => deserExcept (deserGraphHash f.content)

/-- `read_object` at kind `VertexId`. -/
def readVertex (s : Store) (h : Hash) : Except Err Nat :=
  readObject s "vertex" deserVertex h

/-- Mirror of `read_edge` in `file_storage.rs`: read the `HashEdge`, then
re-read its two endpoint hashes through the per-hash vertex read, and build
`Edge(from, to)`. -/
def readEdge (s : Store) (h : Hash) : Except Err (Nat × Nat) :=
  eBind (readObject s "edge" deserHashEdge h) fun he =>
    eBind (readVertex s he.fromH) fun a =>
      eBind (readVertex s he.toH) fun b => .ok (a, b)

/-- Mirror of `read_all_objects` / `read_all_edges` (`try_join_all` over the
per-hash reads): results in input order, first failure aborts the batch. -/
def readAll {α : Type} (rd : Hash → Except Err α) : List Hash → Except Err (List α)
  | [] => .ok []
  | h :: t => eBind (rd h) fun a => eBind (readAll rd t) fun as => .ok (a :: as)

/-- Mirror of `read_graph_vertices`: read the vertex `HashVec`, read every
vertex in it, and `add_vertex` each into the given graph. -/
def readGraphVertices (s : Store) (vertexVecHash : Hash) (g : DirectedGraph) :
    Except Err DirectedGraph :=
  eBind (readObject s "vertexvec" deserHashVec vertexVecHash) fun hs =>
    eBind (readAll (readVertex s) hs) fun vs =>
      .ok (vs.foldl DirectedGraph.addVertex g)

/-- Mirror of `read_graph_edges`: read the edge `HashVec`, read every edge in
it, and `add_edge` each into the given graph. -/
def readGraphEdges (s : Store) (edgeVecHash : Hash) (g : DirectedGraph) :
    Except Err DirectedGraph :=
  eBind (readObject s "edgevec" deserHashVec edgeVecHash) fun hs =>
    eBind (readAll (readEdge s) hs) fun es =>
      .ok (es.foldl DirectedGraph.addEdge g)

/-- Mirror of `read_graph`: vertices into a fresh graph, then edges. -/
def readGraph (s : Store) (gh : GraphHash) : Except Err DirectedGraph :=
  eBind (readGraphVertices s gh.vertexVecHash DirectedGraph.empty) fun g =>
    readGraphEdges s gh.edgeVecHash g

/-- Mirror of `load_graph` in `file_storage.rs`. -/
def loadGraph (s : Store) (name : String) : Except Err DirectedGraph :=
  eBind (readNamedGraphHash s name) fun gh => readGraph s gh

/-! ### The writes performed by a save -/

/-- The write of one vertex object. -/
def vertexWrite (v : Nat) : FPath × Bytes :=
  (createPathFromHash "vertex" (fileOfVertexId v).hash, (fileOfVertexId v).content)

/-- The write of one edge object. -/
def edgeWrite (e : Nat × Nat) : FPath × Bytes :=
  (createPathFromHash "edge" (fileOfEdge e).hash, (fileOfEdge e).content)

/-- The per-vertex digests, in the graph's enumeration order. -/
def vertexHashes (g : DirectedGraph) : List Hash :=
  g.vertices.map fun v => (fileOfVertexId v).hash

/-- The per-edge digests, in the graph's enumeration order. -/
def edgeHashes (g : DirectedGraph) : List Hash :=
  g.edges.map fun e => (fileOfEdge e).hash

/-- The vertex `HashVec` file of a graph. -/
def vertexVecFile (g : DirectedGraph) : FileObj := fileOfHashVec (vertexHashes g)

/-- The edge `HashVec` file of a graph. -/
def edgeVecFile (g : DirectedGraph) : FileObj := fileOfHashVec (edgeHashes g)

/-- The `GraphHash` a save of `g` produces. -/
def graphHashOf (g : DirectedGraph) : GraphHash :=
  ⟨(vertexVecFile g).hash, (edgeVecFile g).hash⟩

/-- The write of the vertex `HashVec` object. -/
def vertexVecWrite (g : DirectedGraph) : FPath × Bytes :=
  (createPathFromHash "vertexvec" (vertexVecFile g).hash, (vertexVecFile g).content)

/-- The write of the edge `HashVec` object. -/
def edgeVecWrite (g : DirectedGraph) : FPath × Bytes :=
  (createPathFromHash "edgevec" (edgeVecFile g).hash, (edgeVecFile g).content)

/-- The write of the named snapshot pointer. -/
def namedWrite (name : String) (g : DirectedGraph) : FPath × Bytes :=
  (createNamedPath "graph" name, (fileOfGraphHash (graphHashOf g)).content)

theorem planWrites_foldr_par (ps : List Plan) :
    planWrites (ps.foldr Plan.parP Plan.nil) = (ps.map planWrites).flatten := by
  induction ps with
  | nil => rfl
  | cons p t ih => simp [List.foldr_cons, planWrites, ih]

theorem fs_writeAllFiles_plan (subDir : String) (files : List FileObj) :
    planWrites (FS.writeAllFiles subDir files).1 =
      files.map fun f => (createPathFromHash subDir f.hash, f.content) := by
  rw [FS.writeAllFiles, tryJoinAll, planWrites_foldr_par]
  induction files with
  | nil => rfl
  | cons f t ih => simp_all [planWrites, FS.writeFile]

theorem exp_writeAllFiles_plan (subDir : String) (files : List FileObj) :
    planWrites (Exp.writeAllFiles subDir files).1 =
      files.map fun f => (createPathFromHash subDir f.hash, f.content) := by
  rw [Exp.writeAllFiles, joinAllExp, planWrites_foldr_par]
  induction files with
  | nil => rfl
  | cons f t ih => simp_all [planWrites, Exp.writeFile]

theorem fs_writeAllFiles_hashes (subDir : String) (files : List FileObj) :
    (FS.writeAllFiles subDir files).2 = files.map (·.hash) := by
  simp [FS.writeAllFiles, tryJoinAll, FS.writeFile]

theorem exp_writeAllFiles_hashes (subDir : String) (files : List FileObj) :
    (Exp.writeAllFiles subDir files).2 = files.map (·.hash) := by
  simp [Exp.writeAllFiles, joinAllExp, Exp.writeFile]

theorem fs_writeGraphVertices_hash (g : DirectedGraph) :
    (FS.writeGraphVertices g).2 = (vertexVecFile g).hash := by
  simp [FS.writeGraphVertices, FS.createDirAndWriteAllFiles, FS.createDirAndWriteObject,
    FS.writeFile, fs_writeAllFiles_hashes, vertexVecFile, vertexHashes, List.map_map]
  rfl

theorem fs_writeGraphEdges_hash (g : DirectedGraph) :
    (FS.writeGraphEdges g).2 = (edgeVecFile g).hash := by
  simp [FS.writeGraphEdges, FS.createDirAndWriteAllFiles, FS.createDirAndWriteObject,
    FS.writeFile, fs_writeAllFiles_hashes, edgeVecFile, edgeHashes, List.map_map]
  rfl

theorem saveWrites_eq (name : String) (g : DirectedGraph) :
    saveWrites name g =
      g.vertices.map vertexWrite ++ [vertexVecWrite g]
        ++ g.edges.map edgeWrite ++ [edgeVecWrite g] ++ [namedWrite name g] := by
  rw [saveWrites, FS.saveGraphAs]
  simp only [FS.writeGraph, FS.writeGraphVertices, FS.writeGraphEdges,
    FS.createDirAndWriteAllFiles, FS.createDirAndWriteObject, FS.writeFile, planWrites,
    fs_writeAllFiles_plan, fs_writeAllFiles_hashes, List.map_map, List.nil_append,
    List.append_assoc, List.append_nil]
  simp only [vertexWrite, edgeWrite, vertexVecWrite, edgeVecWrite, namedWrite, graphHashOf,
    vertexVecFile, edgeVecFile, vertexHashes, edgeHashes, List.map_map, List.append_assoc]
  rfl

/-! ### Store lookup after a batch of writes -/

theorem store_write_self (s : Store) (p : FPath) (b : Bytes) : s.write p b p = some b := by
  simp [Store.write]

theorem store_write_other (s : Store) (p q : FPath) (b : Bytes) (h : q ≠ p) :
    s.write p b q = s q := by
  simp [Store.write, h]

theorem applyWrites_append (s : Store) (ws1 ws2 : List (FPath × Bytes)) :
    applyWrites s (ws1 ++ ws2) = applyWrites (applyWrites s ws1) ws2 := by
  simp [applyWrites, List.foldl_append]

theorem applyWrites_not_mem (s : Store) (ws : List (FPath × Bytes)) (p : FPath)
    (h : p ∉ ws.map Prod.fst) : applyWrites s ws p = s p := by
  induction ws generalizing s with
  | nil => rfl
  | cons w t ih =>
    simp only [List.map_cons, List.mem_cons, not_or] at h
    rw [applyWrites, List.foldl_cons]
    have := ih (s.write w.1 w.2) h.2
    rw [applyWrites] at this
    rw [this, store_write_other _ _ _ _ h.1]

/-- In a batch whose every write to `p` carries the same bytes, the final
content at `p` is those bytes. -/
theorem applyWrites_mem_consistent (s : Store) (ws : List (FPath × Bytes)) (p : FPath)
    (b : Bytes) (hmem : (p, b) ∈ ws) (hcons : ∀ b', (p, b') ∈ ws → b' = b) :
    applyWrites s ws p = some b := by
  induction ws generalizing s with
  | nil => simp at hmem
  | cons w t ih =>
    rw [applyWrites, List.foldl_cons]
    by_cases hpt : p ∈ t.map Prod.fst
    · obtain ⟨w', hw', hfst⟩ := List.mem_map.mp hpt
      have hb' : w'.2 = b := hcons w'.2 (by
        right
        have : w' = (p, w'.2) := by
          cases w' with
          | mk a c => simp_all
        rw [← this]
        exact hw')
      have hmem' : (p, b) ∈ t := by
        have : w' = (p, b) := by
          cases w' with
          | mk a c => simp_all
        rw [← this]
        exact hw'
      have := ih (s.write w.1 w.2) hmem' (fun b' hb' => hcons b' (List.mem_cons_of_mem _ hb'))
      rw [applyWrites] at this
      exact this
    · have hrest : applyWrites (s.write w.1 w.2) t p = (s.write w.1 w.2) p := by
        have := applyWrites_not_mem (s.write w.1 w.2) t p hpt
        exact this
      rw [show (List.foldl (fun s w => s.write w.1 w.2) (s.write w.1 w.2) t) =
        applyWrites (s.write w.1 w.2) t from rfl, hrest]
      by_cases hwp : w.1 = p
      · have : w = (p, w.2) := by
          cases w with
          | mk a c => simp_all
        have hb : w.2 = b := hcons w.2 (by rw [← this]; exact List.mem_cons_self _ _)
        rw [hwp, store_write_self, hb]
      · rcases List.mem_cons.mp hmem with h | h
        · exfalso
          apply hwp
          rw [← h]
        · exfalso
          apply hpt
          exact List.mem_map.mpr ⟨(p, b), h, rfl⟩

/-- Any two writes of one batch to the same path carry the same bytes. -/
def ConsistentW (ws : List (FPath × Bytes)) : Prop :=
  ∀ p b1 b2, (p, b1) ∈ ws → (p, b2) ∈ ws → b1 = b2

theorem applyWrites_lookup (s : Store) (ws : List (FPath × Bytes)) (p : FPath) (b : Bytes)
    (hC : ConsistentW ws) (hmem : (p, b) ∈ ws) : applyWrites s ws p = some b :=
  applyWrites_mem_consistent s ws p b hmem (fun b' hb' => hC p b' b hb' hmem)

/-- A hash-addressed write: its file name is the hex text of the digest of its
own bytes, its directory is not the named-pointer directory, and its bytes are
bytes. -/
def hashAddressed (w : FPath × Bytes) : Prop :=
  w.1.dir ≠ "graph" ∧ w.1.file = hashToText w.2 ∧ ∀ b ∈ w.2, b < 256

theorem vertexWrite_ha (v : Nat) : hashAddressed (vertexWrite v) := by
  refine ⟨by simp [vertexWrite, createPathFromHash], rfl, ?_⟩
  exact serU64_lt v

theorem edgeWrite_ha (e : Nat × Nat) : hashAddressed (edgeWrite e) := by
  refine ⟨by simp [edgeWrite, createPathFromHash], rfl, ?_⟩
  exact serHashEdge_lt (serU64_lt e.1) (serU64_lt e.2)

theorem vertexVecWrite_ha (g : DirectedGraph) : hashAddressed (vertexVecWrite g) := by
  refine ⟨by simp [vertexVecWrite, createPathFromHash], rfl, ?_⟩
  apply serHashVec_lt
  intro h hh
  obtain ⟨v, _, rfl⟩ := List.mem_map.mp hh
  exact serU64_lt v

theorem edgeVecWrite_ha (g : DirectedGraph) : hashAddressed (edgeVecWrite g) := by
  refine ⟨by simp [edgeVecWrite, createPathFromHash], rfl, ?_⟩
  apply serHashVec_lt
  intro h hh
  obtain ⟨e, _, rfl⟩ := List.mem_map.mp hh
  exact serHashEdge_lt (serU64_lt e.1) (serU64_lt e.2)

theorem mem_saveWrites {w : FPath × Bytes} {name : String} {g : DirectedGraph}
    (hm : w ∈ saveWrites name g) : hashAddressed w ∨ w = namedWrite name g := by
  rw [saveWrites_eq] at hm
  simp only [List.append_assoc, List.mem_append, List.mem_map, List.mem_singleton] at hm
  rcases hm with ⟨v, _, rfl⟩ | h | ⟨e, _, rfl⟩ | h | h
  · exact Or.inl (vertexWrite_ha v)
  · exact Or.inl (by rw [h]; exact vertexVecWrite_ha g)
  · exact Or.inl (edgeWrite_ha e)
  · exact Or.inl (by rw [h]; exact edgeVecWrite_ha g)
  · exact Or.inr h

theorem saveWrites_consistent (name : String) (g : DirectedGraph) :
    ConsistentW (saveWrites name g) := by
  intro p b1 b2 h1 h2
  rcases mem_saveWrites h1 with ha1 | hn1 <;> rcases mem_saveWrites h2 with ha2 | hn2
  · have hfile : hashToText b1 = hashToText b2 := by
      rw [← ha1.2.1, ← ha2.2.1]
    exact hashToText_inj ha1.2.2 ha2.2.2 hfile
  · exfalso
    apply ha1.1
    have hp : p = (namedWrite name g).1 := congrArg Prod.fst hn2
    rw [hp]
    rfl
  · exfalso
    apply ha2.1
    have hp : p = (namedWrite name g).1 := congrArg Prod.fst hn1
    rw [hp]
    rfl
  · have e1 : b1 = (namedWrite name g).2 := congrArg Prod.snd hn1
    have e2 : b2 = (namedWrite name g).2 := congrArg Prod.snd hn2
    rw [e1, e2]

/-! ### The store after a save -/

theorem fileOfVertexId_hash (v : Nat) : (fileOfVertexId v).hash = serU64 v := rfl

theorem fileOfEdge_hash (e : Nat × Nat) :
    (fileOfEdge e).hash = serHashEdge (hashEdgeOfEdge e) := rfl

theorem fileOfEdge_hash_length (e : Nat × Nat) : (fileOfEdge e).hash.length = 32 := by
  simp [fileOfEdge, compute, serHashEdge, hashEdgeOfEdge, serHash_length, serU64_length]

theorem flatten_map_serHash_length (hs : List Hash) (c : Nat) (h : ∀ x ∈ hs, x.length = c) :
    ((hs.map serHash).flatten).length = (8 + c) * hs.length := by
  induction hs with
  | nil => simp
  | cons x t ih =>
    simp only [List.map_cons, List.flatten_cons, List.length_append, serHash_length,
      List.length_cons, h x (by simp), ih (fun y hy => h y (by simp [hy])), Nat.mul_succ]
    omega

theorem vertexVec_hash_length (g : DirectedGraph) :
    (vertexVecFile g).hash.length = 8 + 16 * g.vertices.length := by
  have h0 : (vertexVecFile g).hash = serHashVec (vertexHashes g) := rfl
  rw [h0, serHashVec]
  rw [List.length_append, serU64_length,
    flatten_map_serHash_length (vertexHashes g) 8 (by
      intro x hx
      obtain ⟨v, _, rfl⟩ := List.mem_map.mp hx
      rw [fileOfVertexId_hash, serU64_length])]
  simp only [vertexHashes, List.length_map]

theorem edgeVec_hash_length (g : DirectedGraph) :
    (edgeVecFile g).hash.length = 8 + 40 * g.edges.length := by
  have h0 : (edgeVecFile g).hash = serHashVec (edgeHashes g) := rfl
  rw [h0, serHashVec]
  rw [List.length_append, serU64_length,
    flatten_map_serHash_length (edgeHashes g) 32 (by
      intro x hx
      obtain ⟨e, _, rfl⟩ := List.mem_map.mp hx
      rw [fileOfEdge_hash_length])]
  simp only [edgeHashes, List.length_map]

theorem save_lookup_named (s : Store) (name : String) (g : DirectedGraph) :
    applyWrites s (saveWrites name g) (createNamedPath "graph" name) =
      some (serGraphHash (graphHashOf g)) := by
  apply applyWrites_lookup _ _ _ _ (saveWrites_consistent name g)
  rw [saveWrites_eq]
  simp [namedWrite, fileOfGraphHash]

theorem save_lookup_vvec (s : Store) (name : String) (g : DirectedGraph) :
    applyWrites s (saveWrites name g) (createPathFromHash "vertexvec" (vertexVecFile g).hash) =
      some (serHashVec (vertexHashes g)) := by
  apply applyWrites_lookup _ _ _ _ (saveWrites_consistent name g)
  rw [saveWrites_eq]
  have h0 : vertexVecWrite g =
      (createPathFromHash "vertexvec" (vertexVecFile g).hash, serHashVec (vertexHashes g)) := rfl
  simp [← h0]

theorem save_lookup_evec (s : Store) (name : String) (g : DirectedGraph) :
    applyWrites s (saveWrites name g) (createPathFromHash "edgevec" (edgeVecFile g).hash) =
      some (serHashVec (edgeHashes g)) := by
  apply applyWrites_lookup _ _ _ _ (saveWrites_consistent name g)
  rw [saveWrites_eq]
  have h0 : edgeVecWrite g =
      (createPathFromHash "edgevec" (edgeVecFile g).hash, serHashVec (edgeHashes g)) := rfl
  simp [← h0]

theorem save_lookup_vertex (s : Store) (name : String) (g : DirectedGraph) (v : Nat)
    (hv : v ∈ g.vertices) :
    applyWrites s (saveWrites name g) (createPathFromHash "vertex" (fileOfVertexId v).hash) =
      some (serU64 v) := by
  apply applyWrites_lookup _ _ _ _ (saveWrites_consistent name g)
  rw [saveWrites_eq]
  have h0 : vertexWrite v =
      (createPathFromHash "vertex" (fileOfVertexId v).hash, serU64 v) := rfl
  simp only [List.append_assoc, List.mem_append]
  left
  rw [← h0]
  exact List.mem_map.mpr ⟨v, hv, rfl⟩

theorem save_lookup_edge (s : Store) (name : String) (g : DirectedGraph) (e : Nat × Nat)
    (he : e ∈ g.edges) :
    applyWrites s (saveWrites name g) (createPathFromHash "edge" (fileOfEdge e).hash) =
      some (serHashEdge (hashEdgeOfEdge e)) := by
  apply applyWrites_lookup _ _ _ _ (saveWrites_consistent name g)
  rw [saveWrites_eq]
  have h0 : edgeWrite e =
      (createPathFromHash "edge" (fileOfEdge e).hash, serHashEdge (hashEdgeOfEdge e)) := rfl
  simp only [List.append_assoc, List.mem_append]
  right; right; left
  rw [← h0]
  exact List.mem_map.mpr ⟨e, he, rfl⟩

/-! ### Evaluating the read path -/

theorem readObject_eval {α : Type} (s : Store) (subDir : String) (deser : Bytes → Option α)
    (h : Hash) (c : Bytes) (a : α) (hs : s (createPathFromHash subDir h) = some c)
    (hd : deser c = some a) : readObject s subDir deser h = .ok a := by
  simp [readObject, readFile, hs, eBind, hd, deserExcept]

theorem readAll_map {α : Type} (rd : Hash → Except Err α) (l : List α) (f : α → Hash)
    (h : ∀ x ∈ l, rd (f x) = .ok x) : readAll rd (l.map f) = .ok l := by
  induction l with
  | nil => rfl
  | cons a t ih =>
    rw [List.map_cons, readAll, h a (by simp), eBind_ok,
      ih (fun x hx => h x (by simp [hx])), eBind_ok]

/-- The graph `load_graph` reconstructs from a snapshot of `g`: the saved
vertex list added into a fresh graph, then the saved edge list. -/
def loadResult (g : DirectedGraph) : DirectedGraph :=
  g.edges.foldl DirectedGraph.addEdge
    (g.vertices.foldl DirectedGraph.addVertex DirectedGraph.empty)

/-- After a save of a well-formed graph whose edge endpoints are all vertices,
a load of the same name succeeds and rebuilds the saved vertex and edge
lists, whatever was in the store before. -/
theorem load_after_save (s : Store) (name : String) (g : DirectedGraph)
    (hwf : wfGraph g) (hc : closedGraph g) :
    loadGraph (applyWrites s (saveWrites name g)) name = .ok (loadResult g) := by
  obtain ⟨hids, hnv, hne⟩ := hwf
  have hvvlen : (vertexVecFile g).hash.length < 2 ^ 64 := by
    rw [vertexVec_hash_length]; omega
  have hevlen : (edgeVecFile g).hash.length < 2 ^ 64 := by
    rw [edgeVec_hash_length]; omega
  have h1 : readNamedGraphHash (applyWrites s (saveWrites name g)) name =
      .ok (graphHashOf g) := by
    rw [readNamedGraphHash, readNamedFile, save_lookup_named, eBind_ok]
    rw [deserGraphHash_ser _ hvvlen hevlen]
    rfl
  have h2 : readObject (applyWrites s (saveWrites name g)) "vertexvec" deserHashVec
      (vertexVecFile g).hash = .ok (vertexHashes g) := by
    apply readObject_eval _ _ _ _ _ _ (save_lookup_vvec s name g)
    apply deserHashVec_ser
    · simp only [vertexHashes, List.length_map]; omega
    · intro h hh
      obtain ⟨v, _, rfl⟩ := List.mem_map.mp hh
      rw [fileOfVertexId_hash, serU64_length]
      omega
  have h3 : readAll (readVertex (applyWrites s (saveWrites name g))) (vertexHashes g) =
      .ok g.vertices := by
    apply readAll_map
    intro v hv
    apply readObject_eval _ _ _ _ _ _ (save_lookup_vertex s name g v hv)
    exact deserVertex_ser v (hids v hv)
  have h4 : readObject (applyWrites s (saveWrites name g)) "edgevec" deserHashVec
      (edgeVecFile g).hash = .ok (edgeHashes g) := by
    apply readObject_eval _ _ _ _ _ _ (save_lookup_evec s name g)
    apply deserHashVec_ser
    · simp only [edgeHashes, List.length_map]; omega
    · intro h hh
      obtain ⟨e, _, rfl⟩ := List.mem_map.mp hh
      rw [fileOfEdge_hash_length]
      omega
  have h5 : readAll (readEdge (applyWrites s (saveWrites name g))) (edgeHashes g) =
      .ok g.edges := by
    apply readAll_map
    intro e he
    have hee : readObject (applyWrites s (saveWrites name g)) "edge" deserHashEdge
        (fileOfEdge e).hash = .ok (hashEdgeOfEdge e) := by
      apply readObject_eval _ _ _ _ _ _ (save_lookup_edge s name g e he)
      apply deserHashEdge_ser
      · simp [hashEdgeOfEdge, compute, serU64_length]
      · simp [hashEdgeOfEdge, compute, serU64_length]
    have hf : readVertex (applyWrites s (saveWrites name g)) (hashEdgeOfEdge e).fromH =
        .ok e.1 := by
      apply readObject_eval _ _ _ _ _ _ (save_lookup_vertex s name g e.1 (hc e he).1)
      exact deserVertex_ser e.1 (hids e.1 (hc e he).1)
    have ht : readVertex (applyWrites s (saveWrites name g)) (hashEdgeOfEdge e).toH =
        .ok e.2 := by
      apply readObject_eval _ _ _ _ _ _ (save_lookup_vertex s name g e.2 (hc e he).2)
      exact deserVertex_ser e.2 (hids e.2 (hc e he).2)
    rw [readEdge, hee, eBind_ok, hf, eBind_ok, ht, eBind_ok]
  rw [loadGraph, h1, eBind_ok, readGraph, readGraphVertices, graphHashOf, h2, eBind_ok,
    h3, eBind_ok, eBind_ok, readGraphEdges, h4, eBind_ok, h5, eBind_ok]
  rfl

/-! ### Set semantics of the rebuilt graph -/

theorem addVertex_edges (g : DirectedGraph) (v : Nat) :
    (g.addVertex v).edges = g.edges := by
  rw [DirectedGraph.addVertex]
  split <;> rfl

theorem addEdge_vertices (g : DirectedGraph) (e : Nat × Nat) :
    (g.addEdge e).vertices = g.vertices := by
  rw [DirectedGraph.addEdge]
  split <;> rfl

theorem mem_addVertex (g : DirectedGraph) (a v : Nat) :
    v ∈ (g.addVertex a).vertices ↔ v ∈ g.vertices ∨ v = a := by
  rw [DirectedGraph.addVertex]
  split
  · constructor
    · exact fun h => Or.inl h
    · rintro (h | rfl)
      · exact h
      · assumption
  · simp

theorem mem_addEdge (g : DirectedGraph) (a e : Nat × Nat) :
    e ∈ (g.addEdge a).edges ↔ e ∈ g.edges ∨ e = a := by
  rw [DirectedGraph.addEdge]
  split
  · constructor
    · exact fun h => Or.inl h
    · rintro (h | rfl)
      · exact h
      · assumption
  · simp

theorem mem_foldl_addVertex (l : List Nat) (g0 : DirectedGraph) (v : Nat) :
    v ∈ (l.foldl DirectedGraph.addVertex g0).vertices ↔ v ∈ g0.vertices ∨ v ∈ l := by
  induction l generalizing g0 with
  | nil => simp
  | cons a t ih =>
    rw [List.foldl_cons, ih, mem_addVertex]
    simp [or_assoc]

theorem mem_foldl_addEdge (l : List (Nat × Nat)) (g0 : DirectedGraph) (e : Nat × Nat) :
    e ∈ (l.foldl DirectedGraph.addEdge g0).edges ↔ e ∈ g0.edges ∨ e ∈ l := by
  induction l generalizing g0 with
  | nil => simp
  | cons a t ih =>
    rw [List.foldl_cons, ih, mem_addEdge]
    simp [or_assoc]

theorem foldl_addEdge_vertices (l : List (Nat × Nat)) (g0 : DirectedGraph) :
    (l.foldl DirectedGraph.addEdge g0).vertices = g0.vertices := by
  induction l generalizing g0 with
  | nil => rfl
  | cons a t ih => rw [List.foldl_cons, ih, addEdge_vertices]

theorem foldl_addVertex_edges (l : List Nat) (g0 : DirectedGraph) :
    (l.foldl DirectedGraph.addVertex g0).edges = g0.edges := by
  induction l generalizing g0 with
  | nil => rfl
  | cons a t ih => rw [List.foldl_cons, ih, addVertex_edges]

/-- The rebuilt graph has the saved graph's vertex set and edge set. -/
theorem loadResult_equiv (g : DirectedGraph) : graphEquiv (loadResult g) g := by
  constructor
  · intro v
    rw [loadResult, foldl_addEdge_vertices, mem_foldl_addVertex]
    simp [DirectedGraph.empty]
  · intro e
    rw [loadResult, mem_foldl_addEdge, foldl_addVertex_edges]
    simp [DirectedGraph.empty]

/-! ### Idempotence of content-addressed writes -/

theorem applyWrites_agree (ws : List (FPath × Bytes)) (hC : ConsistentW ws) (s s' : Store)
    (hagree : ∀ p, p ∉ ws.map Prod.fst → s' p = s p) :
    applyWrites s' ws = applyWrites s ws := by
  funext p
  by_cases hp : p ∈ ws.map Prod.fst
  · obtain ⟨w, hw, hfst⟩ := List.mem_map.mp hp
    have hmem : (p, w.2) ∈ ws := by
      have : w = (p, w.2) := by
        cases w with
        | mk a c => simp_all
      rw [← this]
      exact hw
    rw [applyWrites_lookup s' ws p w.2 hC hmem, applyWrites_lookup s ws p w.2 hC hmem]
  · rw [applyWrites_not_mem _ _ _ hp, applyWrites_not_mem _ _ _ hp, hagree p hp]

/-- Re-running a consistent batch over any store already holding a prefix of
it produces the same store as running the batch once. -/
theorem applyWrites_rerun (ws : List (FPath × Bytes)) (hC : ConsistentW ws) (s : Store)
    (k : Nat) : applyWrites (applyWrites s (ws.take k)) ws = applyWrites s ws := by
  apply applyWrites_agree ws hC
  intro p hp
  apply applyWrites_not_mem
  intro hmem
  apply hp
  obtain ⟨w, hw, hfst⟩ := List.mem_map.mp hmem
  exact List.mem_map.mpr ⟨w, List.take_subset k ws hw, hfst⟩

/-! ### The writes of the experimental engine -/

theorem exp_saveWrites_eq (name : String) (g : DirectedGraph) :
    planWrites (Exp.saveGraphAs name g) =
      g.vertices.map vertexWrite ++ [vertexVecWrite g]
        ++ g.edges.map edgeWrite ++ [edgeVecWrite g] ++ [namedWrite name g] := by
  rw [Exp.saveGraphAs]
  simp only [Exp.writeGraph, Exp.writeGraphVertices, Exp.writeGraphEdges,
    Exp.createDirAndWriteAllFiles, Exp.createDirAndWriteObject, Exp.writeFile, planWrites,
    exp_writeAllFiles_plan, exp_writeAllFiles_hashes, List.map_map, List.nil_append,
    List.append_assoc, List.append_nil]
  simp only [vertexWrite, edgeWrite, vertexVecWrite, edgeVecWrite, namedWrite, graphHashOf,
    vertexVecFile, edgeVecFile, vertexHashes, edgeHashes, List.map_map, List.append_assoc]
  rfl

/-! ### Inversion of the read path -/

theorem readAll_ok_mem {α : Type} {rd : Hash → Except Err α} {hs : List Hash} {as : List α}
    (h : readAll rd hs = .ok as) : ∀ x ∈ hs, ∃ a, rd x = .ok a := by
  induction hs generalizing as with
  | nil => simp
  | cons x t ih =>
    rw [readAll] at h
    obtain ⟨a, ha, h'⟩ := eBind_eq_ok h
    obtain ⟨ts, hts, _⟩ := eBind_eq_ok h'
    intro y hy
    rcases List.mem_cons.mp hy with rfl | hy'
    · exact ⟨a, ha⟩
    · exact ih hts y hy'

/-! ### Stage structure of the two write engines -/

theorem fs_vertexStage_writes (g : DirectedGraph) :
    planWrites (FS.writeGraphVertices g).1 = g.vertices.map vertexWrite ++ [vertexVecWrite g] := by
  simp only [FS.writeGraphVertices, FS.createDirAndWriteAllFiles, FS.createDirAndWriteObject,
    FS.writeFile, planWrites, fs_writeAllFiles_plan, fs_writeAllFiles_hashes, List.map_map,
    List.nil_append, List.append_assoc, List.append_nil]
  simp only [vertexWrite, vertexVecWrite, vertexVecFile, vertexHashes, List.map_map]
  rfl

theorem fs_edgeStage_writes (g : DirectedGraph) :
    planWrites (FS.writeGraphEdges g).1 = g.edges.map edgeWrite ++ [edgeVecWrite g] := by
  simp only [FS.writeGraphEdges, FS.createDirAndWriteAllFiles, FS.createDirAndWriteObject,
    FS.writeFile, planWrites, fs_writeAllFiles_plan, fs_writeAllFiles_hashes, List.map_map,
    List.nil_append, List.append_assoc, List.append_nil]
  simp only [edgeWrite, edgeVecWrite, edgeVecFile, edgeHashes, List.map_map]
  rfl

theorem fs_stage_paths_disjoint (g : DirectedGraph) :
    (planWrites (FS.writeGraphVertices g).1).map Prod.fst ∩
      (planWrites (FS.writeGraphEdges g).1).map Prod.fst = [] := by
  rw [List.inter_eq_nil_iff_disjoint]
  intro p hp hq
  rw [fs_vertexStage_writes] at hp
  rw [fs_edgeStage_writes] at hq
  simp only [List.map_append, List.mem_append, List.mem_map, List.mem_singleton] at hp hq
  have hd1 : p.dir = "vertex" ∨ p.dir = "vertexvec" := by
    rcases hp with ⟨w, ⟨v, _, rfl⟩, rfl⟩ | ⟨w, rfl, rfl⟩
    · exact Or.inl rfl
    · exact Or.inr rfl
  have hd2 : p.dir = "edge" ∨ p.dir = "edgevec" := by
    rcases hq with ⟨w, ⟨e, _, rfl⟩, rfl⟩ | ⟨w, rfl, rfl⟩
    · exact Or.inl rfl
    · exact Or.inr rfl
  rcases hd1 with h1 | h1 <;> rcases hd2 with h2 | h2 <;> rw [h1] at h2 <;> simp at h2

/-! ### Concrete scenario stores -/

/-- The Scenario-B graph: vertex 14 added, edge (14 → 15) added, vertex 15
never explicitly added. -/
def scenBGraph : DirectedGraph := (DirectedGraph.empty.addVertex 14).addEdge (14, 15)

/-- The store after saving the Scenario-B graph under `"g2"` into an empty
base directory. -/
def scenBStore : Store := applyWrites emptyStore (saveWrites "g2" scenBGraph)

/-- The Scenario-B store with the vertex object of `15` additionally written
explicitly. -/
def scenBStorePlus : Store :=
  scenBStore.write (createPathFromHash "vertex" (fileOfVertexId 15).hash)
    (fileOfVertexId 15).content

/-- A store holding a saved single-vertex graph (vertex `41` under `"n"`),
whose vertex object file was then replaced by bytes that deserialize to `42` —
bytes whose recomputed digest no longer matches the file name. -/
def corruptStore : Store :=
  (applyWrites emptyStore (saveWrites "n" (DirectedGraph.empty.addVertex 41))).write
    (createPathFromHash "vertex" (fileOfVertexId 41).hash) (serU64 42)

/-! ### Claim theorems -/

/-- C1 (amended): for every directed graph whose edge endpoints all appear in
its vertex set (and whose identities and sizes fit the Rust types),
`save_graph_as(base, N, G)` followed by `load_graph(base, N)` succeeds and
returns a graph whose vertex set and edge set equal those of `G`, whatever the
store held before.  As stated — for EVERY graph — the claim fails, because
`read_edge` re-reads each endpoint's vertex object and a save writes vertex
objects only for the graph's vertex list (see the counterexample). -/
theorem c1_roundtrip (s : Store) (name : String) (g : DirectedGraph)
    (hwf : wfGraph g) (hc : closedGraph g) :
    ∃ g', loadGraph (applyWrites s (saveWrites name g)) name = .ok g' ∧ graphEquiv g' g :=
  ⟨loadResult g, load_after_save s name g hwf hc, loadResult_equiv g⟩

/-- C1 counterexample: the graph with vertex 1 and edge (1 → 2) (endpoint 2
never a vertex) saves fine but does not load back: the load fails with
NotFound on vertex 2's never-written object, so no reloaded graph exists. -/
theorem c1_roundtrip_counterexample :
    loadGraph (applyWrites emptyStore
        (saveWrites "g1" ((DirectedGraph.empty.addVertex 1).addEdge (1, 2)))) "g1"
      = .error .notFound ∧
    ¬∃ g', loadGraph (applyWrites emptyStore
        (saveWrites "g1" ((DirectedGraph.empty.addVertex 1).addEdge (1, 2)))) "g1"
      = .ok g' ∧ graphEquiv g' ((DirectedGraph.empty.addVertex 1).addEdge (1, 2)) := by
  have h0 : loadGraph (applyWrites emptyStore
      (saveWrites "g1" ((DirectedGraph.empty.addVertex 1).addEdge (1, 2)))) "g1"
      = .error .notFound := rfl
  refine ⟨h0, ?_⟩
  rintro ⟨g', h, -⟩
  rw [h0] at h
  exact Except.noConfusion h

/-- C1 witness: Scenario A's graph (vertices 14 and 17, no edges) round-trips
to an equivalent graph. -/
theorem c1_roundtrip_witness :
    ∃ g', loadGraph (applyWrites emptyStore
        (saveWrites "ga" ((DirectedGraph.empty.addVertex 14).addVertex 17))) "ga"
      = .ok g' ∧ graphEquiv g' ((DirectedGraph.empty.addVertex 14).addVertex 17) :=
  c1_roundtrip emptyStore "ga" ((DirectedGraph.empty.addVertex 14).addVertex 17)
    (by refine ⟨?_, by decide, by decide⟩; decide) (by unfold closedGraph; decide)

/-- C2: `load_graph` on a never-saved name fails with NotFound, and a load can
only return a graph when the whole referenced chain — named pointer, vertex
`HashVec`, every vertex object in it, edge `HashVec`, every edge object (with
its endpoint reads) — resolved successfully; any missing or corrupt object
aborts the load with the first error (the result type carries either a whole
graph or an error, never a partial graph). -/
theorem c2_missing_object (s : Store) (name : String) :
    (s (createNamedPath "graph" name) = none → loadGraph s name = .error .notFound) ∧
    (∀ g', loadGraph s name = .ok g' →
      ∃ gh vhs ehs,
        readNamedGraphHash s name = .ok gh ∧
        readObject s "vertexvec" deserHashVec gh.vertexVecHash = .ok vhs ∧
        (∀ x ∈ vhs, ∃ v, readVertex s x = .ok v) ∧
        readObject s "edgevec" deserHashVec gh.edgeVecHash = .ok ehs ∧
        (∀ x ∈ ehs, ∃ e, readEdge s x = .ok e)) := by
  constructor
  · intro h
    simp [loadGraph, readNamedGraphHash, readNamedFile, h, eBind]
  · intro g' h
    rw [loadGraph] at h
    obtain ⟨gh, hgh, h⟩ := eBind_eq_ok h
    rw [readGraph] at h
    obtain ⟨g1, hg1, h⟩ := eBind_eq_ok h
    rw [readGraphVertices] at hg1
    obtain ⟨vhs, hvhs, hg1'⟩ := eBind_eq_ok hg1
    obtain ⟨vs, hvs, -⟩ := eBind_eq_ok hg1'
    rw [readGraphEdges] at h
    obtain ⟨ehs, hehs, h'⟩ := eBind_eq_ok h
    obtain ⟨es, hes, -⟩ := eBind_eq_ok h'
    exact ⟨gh, vhs, ehs, hgh, hvhs, readAll_ok_mem hvs, hehs, readAll_ok_mem hes⟩

/-- C2 witness: an empty store has no pointer named "nope", so the load fails
NotFound; and in a store holding a saved graph with vertex 5, whose load
succeeded, vertex 5's object resolves. -/
theorem c2_missing_object_witness :
    loadGraph emptyStore "nope" = .error .notFound ∧
    (∃ v, readVertex (applyWrites emptyStore
        (saveWrites "w" (DirectedGraph.empty.addVertex 5)))
      (fileOfVertexId 5).hash = .ok v) := by
  constructor
  · exact (c2_missing_object emptyStore "nope").1 rfl
  · obtain ⟨gh, vhs, ehs, h1, h2, h3, h4, h5⟩ :=
      (c2_missing_object
        (applyWrites emptyStore (saveWrites "w" (DirectedGraph.empty.addVertex 5))) "w").2
        ⟨[5], []⟩ rfl
    have hgh : gh = graphHashOf (DirectedGraph.empty.addVertex 5) := by
      have h0 : readNamedGraphHash
          (applyWrites emptyStore (saveWrites "w" (DirectedGraph.empty.addVertex 5))) "w" =
          .ok (graphHashOf (DirectedGraph.empty.addVertex 5)) := rfl
      exact (Except.ok.inj (h0.symm.trans h1)).symm
    subst hgh
    have hvhs : vhs = [(fileOfVertexId 5).hash] := by
      have h0 : readObject
          (applyWrites emptyStore (saveWrites "w" (DirectedGraph.empty.addVertex 5)))
          "vertexvec" deserHashVec
          (graphHashOf (DirectedGraph.empty.addVertex 5)).vertexVecHash =
          .ok [(fileOfVertexId 5).hash] := rfl
      exact (Except.ok.inj (h0.symm.trans h2)).symm
    subst hvhs
    exact h3 (fileOfVertexId 5).hash (by simp)

/-- C3: for every `Edge(a, b)`, the `HashEdge` produced and stored equals
`(compute(serialize(a)), compute(serialize(b)))` — the content digests of the
endpoints' serialized forms, equal to the digests the endpoints' own `File`s
would carry, computed from the edge alone (no store argument); and after any
save of any graph containing the edge, the bytes stored at the edge's path are
the serialization of exactly that `HashEdge`, with no condition that `a` or
`b` be vertices of the graph. -/
theorem c3_hashedge_structural (a b : Nat) :
    hashEdgeOfEdge (a, b) = ⟨compute (serU64 a), compute (serU64 b)⟩ ∧
    hashEdgeOfEdge (a, b) = ⟨(fileOfVertexId a).hash, (fileOfVertexId b).hash⟩ ∧
    ∀ (s : Store) (name : String) (g : DirectedGraph), (a, b) ∈ g.edges →
      applyWrites s (saveWrites name g) (createPathFromHash "edge" (fileOfEdge (a, b)).hash) =
        some (serHashEdge ⟨(fileOfVertexId a).hash, (fileOfVertexId b).hash⟩) :=
  ⟨rfl, rfl, fun s name g hg => save_lookup_edge s name g (a, b) hg⟩

/-- C3 witness: in the Scenario-B store the edge (14 → 15) is stored as the
serialized pair of its endpoints' digests although 15 is not a vertex. -/
theorem c3_hashedge_structural_witness :
    scenBStore (createPathFromHash "edge" (fileOfEdge (14, 15)).hash) =
      some (serHashEdge ⟨(fileOfVertexId 14).hash, (fileOfVertexId 15).hash⟩) :=
  (c3_hashedge_structural 14 15).2.2 emptyStore "g2" scenBGraph (by decide)

/-- C4 (amended): the named pointer is mutable with last-writer-wins: after
`save_graph_as(base, N, G1)` then `save_graph_as(base, N, G2)`,
`load_graph(base, N)` returns a graph equal (as vertex and edge sets) to `G2`,
provided `G2`'s edge endpoints all appear in its vertex set (and its
identities and sizes fit the Rust types); `G1` is arbitrary.  As stated — for
all `G2` — the claim fails for the same reason as the round trip (see the
counterexample). -/
theorem c4_last_writer_wins (s : Store) (name : String) (g1 g2 : DirectedGraph)
    (hwf : wfGraph g2) (hc : closedGraph g2) :
    ∃ g', loadGraph (applyWrites (applyWrites s (saveWrites name g1))
        (saveWrites name g2)) name = .ok g' ∧ graphEquiv g' g2 :=
  ⟨loadResult g2, load_after_save _ name g2 hwf hc, loadResult_equiv g2⟩

/-- C4 counterexample: saving a vertex-7 graph under "n", then a graph whose
only content is the dangling edge (3 → 4) under "n", and loading "n" fails
with NotFound instead of returning a graph equal to G2. -/
theorem c4_last_writer_wins_counterexample :
    loadGraph (applyWrites (applyWrites emptyStore
        (saveWrites "n" (DirectedGraph.empty.addVertex 7)))
        (saveWrites "n" (DirectedGraph.empty.addEdge (3, 4)))) "n" = .error .notFound ∧
    ¬∃ g', loadGraph (applyWrites (applyWrites emptyStore
        (saveWrites "n" (DirectedGraph.empty.addVertex 7)))
        (saveWrites "n" (DirectedGraph.empty.addEdge (3, 4)))) "n"
      = .ok g' ∧ graphEquiv g' (DirectedGraph.empty.addEdge (3, 4)) := by
  have h0 : loadGraph (applyWrites (applyWrites emptyStore
      (saveWrites "n" (DirectedGraph.empty.addVertex 7)))
      (saveWrites "n" (DirectedGraph.empty.addEdge (3, 4)))) "n" = .error .notFound := rfl
  refine ⟨h0, ?_⟩
  rintro ⟨g', h, -⟩
  rw [h0] at h
  exact Except.noConfusion h

/-- C4 witness: saving the vertex-1 graph and then the vertex-2 graph under
one name loads back the second graph. -/
theorem c4_last_writer_wins_witness :
    ∃ g', loadGraph (applyWrites (applyWrites emptyStore
        (saveWrites "n" (DirectedGraph.empty.addVertex 1)))
        (saveWrites "n" (DirectedGraph.empty.addVertex 2))) "n"
      = .ok g' ∧ graphEquiv g' (DirectedGraph.empty.addVertex 2) :=
  c4_last_writer_wins emptyStore "n" (DirectedGraph.empty.addVertex 1)
    (DirectedGraph.empty.addVertex 2)
    (by refine ⟨?_, by decide, by decide⟩; decide) (by unfold closedGraph; decide)

/-- C5: hash-addressed writes are idempotent: writing the same `VertexId`
twice targets the same path with byte-identical content, leaving the same
single file; and because every write of one save is either hash-addressed
(path = hex of the digest of its own bytes) or the one named-pointer write,
re-running an identical save on top of any partial prefix of its own writes
produces exactly the store of one complete save — already-present objects are
overwritten with identical bytes and the remainder is completed. -/
theorem c5_idempotent_writes (s : Store) (name : String) (g : DirectedGraph) (v : Nat)
    (k : Nat) :
    applyWrites s [vertexWrite v, vertexWrite v] = applyWrites s [vertexWrite v] ∧
    applyWrites (applyWrites s ((saveWrites name g).take k)) (saveWrites name g) =
      applyWrites s (saveWrites name g) := by
  constructor
  · funext q
    by_cases hq : q = (vertexWrite v).1 <;> simp [applyWrites, Store.write, hq]
  · exact applyWrites_rerun _ (saveWrites_consistent name g) s k

/-- C6 (amended): the vertex stage and the edge stage are mutually independent
batches — their write paths are disjoint — and in `file_storage_exp`'s
`write_graph` they execute concurrently (`vertex_fut.join(edge_fut)`), but in
`file_storage`'s `write_graph` (the engine behind the public `save_graph_as`)
the vertex stage is awaited to completion before the edge stage starts. -/
theorem c6_concurrent_stages (g : DirectedGraph) :
    (Exp.writeGraph g).1 = .parP (Exp.writeGraphVertices g).1 (Exp.writeGraphEdges g).1 ∧
    stagePar (Exp.writeGraph g).1 = true ∧
    (FS.writeGraph g).1 = .seqP (FS.writeGraphVertices g).1 (FS.writeGraphEdges g).1 ∧
    stagePar (FS.writeGraph g).1 = false ∧
    (planWrites (FS.writeGraphVertices g).1).map Prod.fst ∩
      (planWrites (FS.writeGraphEdges g).1).map Prod.fst = [] :=
  ⟨rfl, rfl, rfl, rfl, fs_stage_paths_disjoint g⟩

/-- C6 counterexample: in `file_storage.rs` (the async/await engine whose
`save_graph_as` the claim cites) the two stages of `write_graph` are composed
sequentially, not concurrently, already for the empty graph. -/
theorem c6_concurrent_stages_counterexample :
    (FS.writeGraph DirectedGraph.empty).1 =
      .seqP (FS.writeGraphVertices DirectedGraph.empty).1
        (FS.writeGraphEdges DirectedGraph.empty).1 ∧
    stagePar (FS.writeGraph DirectedGraph.empty).1 = false :=
  ⟨rfl, rfl⟩

/-- C7: the `HashVec` object stored for the vertices (and likewise for the
edges) is the serialization of exactly the per-object digest list in the
enumeration order of the source collection — an order-preserving map, never a
sort — and the engine returns as `vertex_vec_hash` the digest of that same
in-order list. -/
theorem c7_hashvec_order (s : Store) (name : String) (g : DirectedGraph) :
    applyWrites s (saveWrites name g) (createPathFromHash "vertexvec" (vertexVecFile g).hash) =
      some (serHashVec (g.vertices.map fun v => (fileOfVertexId v).hash)) ∧
    applyWrites s (saveWrites name g) (createPathFromHash "edgevec" (edgeVecFile g).hash) =
      some (serHashVec (g.edges.map fun e => (fileOfEdge e).hash)) ∧
    (FS.writeGraphVertices g).2 =
      (fileOfHashVec (g.vertices.map fun v => (fileOfVertexId v).hash)).hash :=
  ⟨save_lookup_vvec s name g, save_lookup_evec s name g, by
    rw [fs_writeGraphVertices_hash]; rfl⟩

/-- C8 (amended): saving the Scenario-B graph (vertex 14, edge 14 → 15, vertex
15 never added) under "g2" and loading "g2" fails with NotFound on a store
holding only that save, because no vertex object for 15 was ever written; when
15's vertex object is additionally present (written explicitly), the load
succeeds, the result contains edge (14 → 15) and explicit vertex 14, and
vertex 15 is NOT materialized as a graph vertex (the loader adds edges
without materializing endpoints). -/
theorem c8_scenario_b :
    loadGraph scenBStorePlus "g2" = .ok ⟨[14], [(14, 15)]⟩ ∧
    14 ∈ (DirectedGraph.mk [14] [(14, 15)]).vertices ∧
    (14, 15) ∈ (DirectedGraph.mk [14] [(14, 15)]).edges ∧
    15 ∉ (DirectedGraph.mk [14] [(14, 15)]).vertices :=
  ⟨rfl, by decide, by decide, by decide⟩

/-- C8 counterexample: on a store holding only the save of the Scenario-B
graph, the load does not yield a graph at all — it fails with NotFound on
endpoint 15's never-written vertex object. -/
theorem c8_scenario_b_counterexample :
    loadGraph scenBStore "g2" = .error .notFound ∧
    ¬∃ g', loadGraph scenBStore "g2" = .ok g' := by
  have h0 : loadGraph scenBStore "g2" = .error .notFound := rfl
  refine ⟨h0, ?_⟩
  rintro ⟨g', h⟩
  rw [h0] at h
  exact Except.noConfusion h

/-- C9: hash-addressed reads never re-verify content: `read_file` builds the
`File` with the hash taken from the request, without recomputing it from the
bytes read, so when the file at the vertex path of `h` holds any bytes that
deserialize to a value — even bytes whose recomputed digest differs from `h`
— `read_object` succeeds with the altered value; concretely, a whole
`load_graph` over a store whose vertex-41 object was replaced by bytes
serializing 42 succeeds and returns the graph with vertex 42, no error. -/
theorem c9_no_reverify :
    (∀ (s : Store) (h : Hash) (c : Bytes) (v : Nat),
      s (createPathFromHash "vertex" h) = some c → deserVertex c = some v →
      compute c ≠ h → readVertex s h = .ok v) ∧
    compute (serU64 42) ≠ (fileOfVertexId 41).hash ∧
    loadGraph corruptStore "n" = .ok ⟨[42], []⟩ := by
  refine ⟨?_, by decide, rfl⟩
  intro s h c v hs hd _
  exact readObject_eval s "vertex" deserVertex h c v hs hd

/-- C9 witness: reading via the digest of serialized 41 from the corrupted
store succeeds with 42. -/
theorem c9_no_reverify_witness :
    readVertex corruptStore (fileOfVertexId 41).hash = .ok 42 :=
  c9_no_reverify.1 corruptStore (fileOfVertexId 41).hash (serU64 42) 42 rfl rfl (by decide)

/-- C10: the two storage engines write the same (path, bytes) pairs — the same
hash-addressed objects and the same named-pointer content — for every name and
graph; they differ only in the scheduling structure of the plan (and in
directory creation), not in any file written. -/
theorem c10_engines_equivalent (name : String) (g : DirectedGraph) :
    planWrites (FS.saveGraphAs name g) = planWrites (Exp.saveGraphAs name g) := by
  rw [show planWrites (FS.saveGraphAs name g) = saveWrites name g from rfl, saveWrites_eq,
    exp_saveWrites_eq]
